import Mathlib

/-!
Shallow embedding of the email text-analysis pipeline
(`nlp_processor.py`, class `EmailProcessor`).

Strings are modelled as lists of characters (`Str`).  The external
collaborators (the NLTK tokenizers / tagger and the two transformer model
adapters) are parameters of the embedded operations: a summarization model is
a function `Str → ℤ → ℤ → Option Str` (`none` models a raised exception), a
sentiment model is `Str → Option ℚ` (`none` models a per-chunk failure, the
rational is the returned confidence score), and the linguistic resources are
plain functions.  Every embedded operation is a total computable function, so
the "never raises" design principle of the pipeline is reflected by totality
of the embedding.
-/

namespace EmailAssist

/-- Program strings as character lists. -/
abbrev Str := List Char

/-- Shorthand turning a Lean string literal into a `Str`. -/
def strL (s : String) : Str := s.data

/-- Whitespace test used by Python's argument-less `str.split()`. -/
def isWS (c : Char) : Bool := c.isWhitespace

/-- Core of Python's `str.split(sep)`: returns the first field and the
remaining fields of `s` split at every character satisfying `p`. -/
def splitPA (p : Char → Bool) : Str → Str × List Str
  | [] => ([], [])
  | c :: cs =>
    let r := splitPA p cs
    if p c then ([], r.1 :: r.2) else (c :: r.1, r.2)

/-- Python's `str.split(sep)` (splitting at every character satisfying `p`,
keeping empty fields; `"".split(sep) == ['']`). -/
def splitP (p : Char → Bool) (s : Str) : List Str :=
  (splitPA p s).1 :: (splitPA p s).2

/-- Python's argument-less `str.split()`: split on whitespace, discarding
empty fields (so `"".split() == []`). -/
def pySplit (s : Str) : List Str :=
  (splitP isWS s).filter (fun w => !w.isEmpty)

/-- Python's `' '.join(ws)`. -/
def joinSpace : List Str → Str
  | [] => []
  | [w] => w
  | w :: ws => w ++ ' ' :: joinSpace ws

/-- Python's `str.lower()` (modelled characterwise). -/
def pyLower (s : Str) : Str := s.map Char.toLower

/-- Python's `str.strip()`. -/
def pyStrip (s : Str) : Str :=
  ((s.dropWhile isWS).reverse.dropWhile isWS).reverse

/-- Python's `str.rfind('.')`: index of the last `'.'`, `none` when absent
(the source's `-1`). -/
def rfindDotAux : Str → Nat → Option Nat → Option Nat
  | [], _, acc => acc
  | c :: cs, i, acc => rfindDotAux cs (i + 1) (if c = '.' then some i else acc)

/-- Python's `chunk.rfind('.')` wrapped in an option. -/
def rfindDot (s : Str) : Option Nat := rfindDotAux s 0 none

/-- `EmailProcessor.clean_text` (nlp_processor.py:30-37):
`text = ' '.join(text.split())`, then `lines = text.split('\n')`, keep the
lines with `len(line.split()) > 3`, and return `' '.join(lines)`. -/
def clean_text (text : Str) : Str :=
  let t := joinSpace (pySplit text)
  let lines := splitP (fun c => c == '\n') t
  let lines := lines.filter (fun line => decide (3 < (pySplit line).length))
  joinSpace lines

/-- One pass of the summarizer's chunking loop (nlp_processor.py:57-65),
fuelled to make the recursion structural.  Each step takes `maxW` words,
joins them, and — when more words remain (`i + max_chunk_size < len(words)`
in the source) — cuts the chunk back to its last period when one exists.
The source's `i = i + len(chunk.split())` has no effect on Python's `range`
iterator, so the next chunk still starts `maxW` words further on. -/
def chunkAux (maxW : Nat) : Nat → List Str → List Str
  | _, [] => []
  | 0, _ :: _ => []
  | fuel + 1, ws =>
    let chunk := joinSpace (ws.take maxW)
    let chunk :=
      if maxW < ws.length then
        match rfindDot chunk with
        | some p => chunk.take (p + 1)
        | none => chunk
      else chunk
    chunk :: chunkAux maxW fuel (ws.drop maxW)

/-- The summarizer's chunker over a word list (nlp_processor.py:52-65). -/
def chunkWords (maxW : Nat) (ws : List Str) : List Str :=
  chunkAux maxW ws.length ws

/-- Fuelled loop of the sentiment path's plain slicing chunker
(nlp_processor.py:126-128): fixed-size word slices, no trimming. -/
def chunkSimpleAux (maxW : Nat) : Nat → List Str → List Str
  | _, [] => []
  | 0, _ :: _ => []
  | fuel + 1, ws => joinSpace (ws.take maxW) :: chunkSimpleAux maxW fuel (ws.drop maxW)

/-- The sentiment analyzer's chunker (nlp_processor.py:122-128). -/
def chunkSimple (maxW : Nat) (ws : List Str) : List Str :=
  chunkSimpleAux maxW ws.length ws

/-- Sentiment labels of the pipeline. -/
inductive SentLabel
  | POSITIVE
  | NEGATIVE
  | NEUTRAL
deriving DecidableEq

/-- The sentiment result dictionary `{'sentiment': ..., 'confidence': ...}`. -/
structure Verdict where
  sentiment : SentLabel
  confidence : ℚ
deriving DecidableEq

/-- The chunks the sentiment path feeds to the model for a given input text
(nlp_processor.py:119-128): clean, split into words, slice into runs of 500. -/
def sentimentChunks (text : Str) : List Str :=
  chunkSimple 500 (pySplit (clean_text text))

/-- The per-chunk scores the sentiment model yields on a text
(nlp_processor.py:130-137): each chunk is hard-truncated to its first 512
characters, and failing chunks (`none`) are skipped. -/
def chunkScores (cl : Str → Option ℚ) (text : Str) : List ℚ :=
  (sentimentChunks text).filterMap (fun chunk => cl (chunk.take 512))

/-- `EmailProcessor.analyze_sentiment` (nlp_processor.py:115-162).
`cl` is the black-box sentiment model adapter. -/
def analyze_sentiment (cl : Str → Option ℚ) (text : Str) : Verdict :=
  let sentiments := chunkScores cl text
  if sentiments = [] then ⟨.NEUTRAL, 1/2⟩
  else
    let avg := sentiments.sum / (sentiments.length : ℚ)
    ⟨if 3/5 < avg then .POSITIVE else if avg < 2/5 then .NEGATIVE else .NEUTRAL, avg⟩

/-- `EmailProcessor.summarize_email` (nlp_processor.py:39-113).
`summ` is the black-box summarization model adapter (`none` = the model call
raised, triggering the first-sentence fallback); `st` models NLTK's
`sent_tokenize`.  The thresholds `3/5` and `2/5` do not occur here; the
word-length arithmetic for the model call uses `ℤ` with floor division as in
Python. -/
def summarize_email (summ : Str → ℤ → ℤ → Option Str) (st : Str → List Str)
    (maxLength minLength : ℤ) (text : Str) : Str :=
  if pyStrip text = [] then strL "No content to summarize."
  else
    let text := clean_text text
    if (pySplit text).length < 50 then text
    else
      let words := pySplit text
      let chunks := chunkWords 500 words
      let summaries := chunks.foldl (fun acc chunk =>
        if 50 < (pySplit chunk).length then
          let chunkLength : ℤ := (pySplit chunk).length
          let adjustedMax := min maxLength (max minLength (chunkLength / 3))
          let adjustedMin := min minLength (adjustedMax - 10)
          let chunk := if 1000 < (pySplit chunk).length
            then joinSpace ((pySplit chunk).take 1000) else chunk
          match summ chunk adjustedMax adjustedMin with
          | some s => if s ≠ [] then acc ++ [s] else acc
          | none =>
            match st chunk with
            | fs :: _ => acc ++ [fs]
            | [] => acc
        else acc) []
      if summaries ≠ [] then
        let finalSummary := joinSpace summaries
        if maxLength < ((pySplit finalSummary).length : ℤ)
        then joinSpace ((pySplit finalSummary).take maxLength.toNat) ++ strL "..."
        else finalSummary
      else joinSpace ((st text).take 3)

/-- Python-dict insertion for `sentence_scores[sentence] = score`
(nlp_processor.py:197): update in place when the key is present (its position
is kept), append otherwise. -/
def dictInsert (d : List (Str × Nat)) (k : Str) (v : Nat) : List (Str × Nat) :=
  if d.any (fun kv => kv.1 == k) then
    d.map (fun kv => if kv.1 = k then (k, v) else kv)
  else d ++ [(k, v)]

/-- Stable insertion used to model Python's stable sorts: `x` is placed after
every element it does not strictly precede (`bf x y` = `x` must come before
`y`). -/
def insertOrd (bf : α → α → Bool) (x : α) : List α → List α
  | [] => [x]
  | y :: ys => if bf x y then x :: y :: ys else y :: insertOrd bf x ys

/-- Stable sort by repeated insertion; with a strict `bf` this computes the
same list as Python's stable `sorted`/`list.sort`. -/
def sortOrd (bf : α → α → Bool) (l : List α) : List α :=
  l.foldl (fun acc x => insertOrd bf x acc) []

/-- Tag test `tag.startswith(('NN', 'VB'))` (nouns and verbs). -/
def tagNounVerb (tag : Str) : Bool :=
  (strL "NN").isPrefixOf tag || (strL "VB").isPrefixOf tag

/-- Tag test `tag.startswith(('JJ', 'RB'))` (adjectives and adverbs). -/
def tagAdjAdv (tag : Str) : Bool :=
  (strL "JJ").isPrefixOf tag || (strL "RB").isPrefixOf tag

/-- Part-of-speech score of one sentence (nlp_processor.py:175-185):
tokenize the lowercased sentence, tag it, and add 2 per non-stopword noun or
verb and 1 per non-stopword adjective or adverb.  `wt` models NLTK's
`word_tokenize`, `pt` models `pos_tag`, `stop` is the stopword set. -/
def posBaseScore (wt : Str → List Str) (pt : List Str → List (Str × Str))
    (stop : List Str) (sentence : Str) : Nat :=
  let words := wt (pyLower sentence)
  let tagged := pt words
  tagged.foldl (fun sc wtag =>
    if wtag.1 ∈ stop then sc
    else if tagNounVerb wtag.2 then sc + 2
    else if tagAdjAdv wtag.2 then sc + 1
    else sc) 0

/-- Total score of one sentence (nlp_processor.py:175-195): the
part-of-speech score, then `+3` when `sentences.index(sentence) == 0`,
`elif +2` when it is the last index, then `+2` when
`5 < len(words) < 25`. -/
def sentenceScore (wt : Str → List Str) (pt : List Str → List (Str × Str))
    (stop : List Str) (sentences : List Str) (sentence : Str) : Nat :=
  let words := wt (pyLower sentence)
  let score := posBaseScore wt pt stop sentence
  let score :=
    if sentences.indexOf sentence = 0 then score + 3
    else if sentences.indexOf sentence = sentences.length - 1 then score + 2
    else score
  if 5 < words.length ∧ words.length < 25 then score + 2 else score

/-- `EmailProcessor.extract_key_points` (nlp_processor.py:164-209).
`st` models `sent_tokenize`; scores live in a Python dict keyed by sentence
text; selection is Python's stable `sorted(..., key=score, reverse=True)`
truncated to `numPoints`, re-sorted by `sentences.index`. -/
def extract_key_points (st : Str → List Str) (wt : Str → List Str)
    (pt : List Str → List (Str × Str)) (stop : List Str)
    (text : Str) (numPoints : Nat) : List Str :=
  let text := clean_text text
  let sentences := st text
  let d := sentences.foldl
    (fun d sentence => dictInsert d sentence (sentenceScore wt pt stop sentences sentence)) []
  let keyPoints := (sortOrd (fun x y => decide (y.2 < x.2)) d).take numPoints
  let keyPoints := sortOrd
    (fun x y => decide (sentences.indexOf x.1 < sentences.indexOf y.1)) keyPoints
  keyPoints.map (fun p => p.1)

/-- An input email record (the dictionaries produced by the retrieval
layer; `process_email` reads `email_data.get('body', '')`). -/
structure MessageRecord where
  id : Str
  subject : Str
  sender : Str
  date : Str
  body : Str
deriving DecidableEq

/-- The result dictionary returned by `process_email`. -/
structure ProcessResult where
  summary : Str
  sentiment : Verdict
  key_points : List Str
  original_email : MessageRecord
deriving DecidableEq

/-- `EmailProcessor.process_email` (nlp_processor.py:211-220), with the model
and linguistic-resource collaborators passed explicitly; the Python default
arguments `max_length=130`, `min_length=30`, `num_points=5` are applied. -/
def process_email (summ : Str → ℤ → ℤ → Option Str) (st : Str → List Str)
    (wt : Str → List Str) (pt : List Str → List (Str × Str)) (stop : List Str)
    (cl : Str → Option ℚ) (email : MessageRecord) : ProcessResult :=
  let body := email.body
  { summary := summarize_email summ st 130 30 body
    sentiment := analyze_sentiment cl body
    key_points := extract_key_points st wt pt stop body 5
    original_email := email }

/-! ### Concrete collaborator instances and inputs used in witnesses. -/

/-- A summarization adapter whose every call fails (raises). -/
def summ0 : Str → ℤ → ℤ → Option Str := fun _ _ _ => none

/-- A sentence tokenizer that returns no sentences. -/
def st0 : Str → List Str := fun _ => []

/-- A word tokenizer that returns no tokens. -/
def wt0 : Str → List Str := fun _ => []

/-- A part-of-speech tagger that returns no tags. -/
def pt0 : List Str → List (Str × Str) := fun _ => []

/-- A sentiment adapter that scores every chunk `7/10`. -/
def cl0 : Str → Option ℚ := fun _ => some (7/10)

/-- A five-word input (kept whole by `clean_text`). -/
def textFive : Str := strL "one two three four five"

/-- A single concrete sentence. -/
def sone : Str := strL "Meeting moved to Friday."

/-- A concrete sentence occurring twice in a document. -/
def sdup : Str := strL "Budget approved for next quarter."

/-- A sentence tokenizer that reports the same sentence text at two
positions of the document. -/
def stDup : Str → List Str := fun _ => [sdup, sdup]

/-- Ten repeated lines of two words each (the spec's Scenario B input). -/
def linesTen : Str :=
  strL "hi there\nhi there\nhi there\nhi there\nhi there\nhi there\nhi there\nhi there\nhi there\nhi there"

/-- A four-word list whose first two-word slice contains an inner period. -/
def wordsFour : List Str := [strL "a.", strL "b", strL "c", strL "d"]

/-- Two message records equal except for their metadata fields. -/
def rec1 : MessageRecord :=
  ⟨strL "id-1", strL "subj A", strL "alice@example.com", strL "Mon, 1 Jan", strL "hello body text here"⟩

/-- Second record: same body as `rec1`, different metadata. -/
def rec2 : MessageRecord :=
  ⟨strL "id-2", strL "subj B", strL "bob@example.com", strL "Tue, 2 Jan", strL "hello body text here"⟩

/-! ### Lemmas about splitting and joining. -/

/-- Splitting a separator-free string yields the string as its single field. -/
theorem splitPA_of_clean (p : Char → Bool) :
    ∀ s : Str, (∀ c ∈ s, p c = false) → splitPA p s = (s, []) := by
  intro s
  induction s with
  | nil => intro _; rfl
  | cons c cs ih =>
    intro h
    have hc : p c = false := h c (by simp)
    simp [splitPA, hc, ih (fun d hd => h d (by simp [hd]))]

/-- Splitting `w ++ sep :: l` for separator-free `w` peels off `w` as the
first field. -/
theorem splitPA_append (p : Char → Bool) (sep : Char) (hsep : p sep = true) :
    ∀ w : Str, (∀ c ∈ w, p c = false) → ∀ l : Str,
      splitPA p (w ++ sep :: l) = (w, (splitPA p l).1 :: (splitPA p l).2) := by
  intro w
  induction w with
  | nil => intro _ l; simp [splitPA, hsep]
  | cons c cs ih =>
    intro h l
    have hc : p c = false := h c (by simp)
    simp [splitPA, hc, ih (fun d hd => h d (by simp [hd])) l]

/-- No field produced by `splitP` contains a separator character. -/
theorem splitP_clean (p : Char → Bool) :
    ∀ s : Str, ∀ piece ∈ splitP p s, ∀ c ∈ piece, p c = false := by
  intro s
  induction s with
  | nil =>
    intro piece hp
    simp only [splitP, splitPA, List.mem_singleton] at hp
    subst hp
    simp
  | cons b cs ih =>
    intro piece hp d hd
    by_cases hb : p b = true
    · have hrw : splitP p (b :: cs) = [] :: splitP p cs := by
        simp [splitP, splitPA, hb]
      rw [hrw, List.mem_cons] at hp
      rcases hp with rfl | hp
      · simp at hd
      · exact ih piece hp d hd
    · have hb' : p b = false := by simpa using hb
      have hrw : splitP p (b :: cs) = (b :: (splitPA p cs).1) :: (splitPA p cs).2 := by
        simp [splitP, splitPA, hb']
      rw [hrw, List.mem_cons] at hp
      rcases hp with rfl | hp
      · rw [List.mem_cons] at hd
        rcases hd with rfl | hd
        · exact hb'
        · exact ih (splitPA p cs).1 (by simp [splitP]) d hd
      · exact ih piece (by simp [splitP, hp]) d hd

/-- Splitting a separator-free string yields a single field. -/
theorem splitP_of_clean (p : Char → Bool) (s : Str)
    (h : ∀ c ∈ s, p c = false) : splitP p s = [s] := by
  simp [splitP, splitPA_of_clean p s h]

/-- `joinSpace` on two or more words. -/
theorem joinSpace_cons_cons (w x : Str) (ws : List Str) :
    joinSpace (w :: x :: ws) = w ++ ' ' :: joinSpace (x :: ws) := rfl

/-- A character of a joined list is a space or comes from one of the words. -/
theorem mem_joinSpace {c : Char} :
    ∀ ws : List Str, c ∈ joinSpace ws → c = ' ' ∨ ∃ w ∈ ws, c ∈ w := by
  intro ws
  induction ws with
  | nil => simp [joinSpace]
  | cons w ws ih =>
    cases ws with
    | nil =>
      intro h
      exact Or.inr ⟨w, by simp, by simpa [joinSpace] using h⟩
    | cons x xs =>
      intro h
      rw [joinSpace_cons_cons] at h
      rcases List.mem_append.mp h with h | h
      · exact Or.inr ⟨w, by simp, h⟩
      · rw [List.mem_cons] at h
        rcases h with rfl | h
        · exact Or.inl rfl
        · rcases ih h with h | ⟨v, hv, hcv⟩
          · exact Or.inl h
          · exact Or.inr ⟨v, by simp [hv], hcv⟩

/-- Every character of every word occurs in the joined list. -/
theorem mem_joinSpace_of_mem {c : Char} :
    ∀ {ws : List Str} {w : Str}, w ∈ ws → c ∈ w → c ∈ joinSpace ws := by
  intro ws
  induction ws with
  | nil => simp
  | cons v vs ih =>
    intro w hw hc
    rw [List.mem_cons] at hw
    cases vs with
    | nil =>
      rcases hw with rfl | hw
      · simpa [joinSpace] using hc
      · simp at hw
    | cons x xs =>
      rw [joinSpace_cons_cons]
      rcases hw with rfl | hw
      · exact List.mem_append.mpr (Or.inl hc)
      · exact List.mem_append.mpr (Or.inr (List.mem_cons_of_mem _ (ih hw hc)))

/-- Fields of `pySplit` are nonempty and whitespace-free. -/
theorem pySplit_good (s : Str) :
    ∀ w ∈ pySplit s, w ≠ [] ∧ ∀ c ∈ w, isWS c = false := by
  intro w hw
  unfold pySplit at hw
  rw [List.mem_filter] at hw
  refine ⟨?_, splitP_clean isWS s w hw.1⟩
  intro hnil
  subst hnil
  simp at hw

/-- Splitting the space-joined list of nonempty whitespace-free words
recovers the words. -/
theorem pySplit_joinSpace :
    ∀ ws : List Str, (∀ w ∈ ws, w ≠ [] ∧ ∀ c ∈ w, isWS c = false) →
      pySplit (joinSpace ws) = ws := by
  intro ws
  induction ws with
  | nil => intro _; rfl
  | cons w ws ih =>
    intro h
    have hw := h w (by simp)
    have hwne : (!w.isEmpty) = true := by
      simpa using hw.1
    cases ws with
    | nil =>
      have h1 : splitP isWS (joinSpace [w]) = [w] := by
        simpa [joinSpace] using splitP_of_clean isWS w hw.2
      unfold pySplit
      rw [h1, List.filter_cons, hwne, if_pos rfl]
      rfl
    | cons x xs =>
      have hrest : ∀ v ∈ x :: xs, v ≠ [] ∧ ∀ c ∈ v, isWS c = false :=
        fun v hv => h v (by simp [hv])
      have hB := splitPA_append isWS ' ' (by decide) w hw.2 (joinSpace (x :: xs))
      have hsplit : splitP isWS (joinSpace (w :: x :: xs))
          = w :: splitP isWS (joinSpace (x :: xs)) := by
        rw [joinSpace_cons_cons]
        simp [splitP, hB]
      have hih := ih hrest
      unfold pySplit at hih ⊢
      rw [hsplit, List.filter_cons, hwne, if_pos rfl, hih]

/-- Closed form of `clean_text`: because the whitespace collapse happens
before the newline split, the line filter sees the whole collapsed text as a
single line, so the result is empty when the input has at most three words
and the collapsed text otherwise. -/
theorem clean_text_eq (s : Str) :
    clean_text s = if 3 < (pySplit s).length then joinSpace (pySplit s) else [] := by
  have hgood := pySplit_good s
  have hnl : ∀ c ∈ joinSpace (pySplit s), (c == '\n') = false := by
    intro c hc
    rcases mem_joinSpace _ hc with rfl | ⟨w, hw, hcw⟩
    · decide
    · have hcf : isWS c = false := (hgood w hw).2 c hcw
      by_contra hne
      have : c = '\n' := by
        simpa using hne
      subst this
      simp [isWS, Char.isWhitespace] at hcf
  have hlines : splitP (fun c => c == '\n') (joinSpace (pySplit s))
      = [joinSpace (pySplit s)] := splitP_of_clean _ _ hnl
  show joinSpace ((splitP (fun c => c == '\n') (joinSpace (pySplit s))).filter
      (fun line => decide (3 < (pySplit line).length))) = _
  rw [hlines, List.filter_cons, pySplit_joinSpace (pySplit s) hgood]
  by_cases h3 : 3 < (pySplit s).length
  · rw [if_pos (by simpa using h3), if_pos h3]
    simp [joinSpace]
  · rw [if_neg (by simpa using h3), if_neg h3]
    rfl

/-- `clean_text` is a retraction: applying it twice equals applying it
once. -/
theorem clean_text_fix (s : Str) : clean_text (clean_text s) = clean_text s := by
  rw [clean_text_eq s]
  by_cases h3 : 3 < (pySplit s).length
  · rw [if_pos h3, clean_text_eq, pySplit_joinSpace (pySplit s) (pySplit_good s), if_pos h3]
  · rw [if_neg h3]
    rfl

/-- A list member that fails the predicate survives `dropWhile`. -/
theorem mem_dropWhile_self {p : Char → Bool} :
    ∀ s : Str, ∀ c ∈ s, p c = false → c ∈ s.dropWhile p := by
  intro s
  induction s with
  | nil => simp
  | cons b t ih =>
    intro c hc hpc
    rw [List.mem_cons] at hc
    rw [List.dropWhile_cons]
    by_cases hb : p b = true
    · rw [if_pos hb]
      rcases hc with rfl | hc
      · rw [hpc] at hb
        cases hb
      · exact ih c hc hpc
    · rw [if_neg hb]
      rw [List.mem_cons]
      exact hc

/-- A string containing a non-whitespace character does not strip to the
empty string. -/
theorem pyStrip_ne_nil {s : Str} {c : Char} (hc : c ∈ s) (hpc : isWS c = false) :
    pyStrip s ≠ [] := by
  unfold pyStrip
  have h1 : c ∈ s.dropWhile isWS := mem_dropWhile_self s c hc hpc
  have h2 : c ∈ (s.dropWhile isWS).reverse := List.mem_reverse.mpr h1
  have h3 : c ∈ (s.dropWhile isWS).reverse.dropWhile isWS :=
    mem_dropWhile_self _ c h2 hpc
  intro heq
  rw [List.reverse_eq_nil_iff] at heq
  exact List.ne_nil_of_mem h3 heq

/-! ### Claim theorems. -/

/-- Claim C10: `clean_text` is idempotent — applying it to its own output
returns that output unchanged, for every input string. -/
theorem clean_text_idempotent (s : Str) :
    clean_text (clean_text s) = clean_text s :=
  clean_text_fix s

/-- Claim C1 (divergence witness): on ten repeated two-word lines
`clean_text` does NOT return the empty string — the whitespace collapse runs
before the newline split, so the line filter sees one 20-word line and keeps
it, returning the collapsed text. -/
theorem clean_text_short_lines_kept :
    clean_text linesTen
      = strL "hi there hi there hi there hi there hi there hi there hi there hi there hi there hi there"
    ∧ clean_text linesTen ≠ [] := by
  constructor
  · decide
  · decide

/-- Claim C3 (divergence witness): trimming a non-final chunk back to its
last period does not move the removed words into the next chunk — the
loop-index reassignment in the source has no effect on the `range` iterator
— so those words are lost: chunking `["a.", "b", "c", "d"]` with a two-word
budget yields `["a.", "c d"]` and the word `"b"` occurs in no chunk. -/
theorem chunkWords_drops_trimmed_words :
    chunkWords 2 wordsFour = [strL "a.", strL "c d"]
    ∧ strL "b" ∈ wordsFour
    ∧ strL "b" ∉ pySplit (strL "a.") ++ pySplit (strL "c d") := by
  refine ⟨by decide, by decide, by decide⟩

/-- Claim C2: on the empty input, `summarize_email` returns the sentinel
string, `analyze_sentiment` returns the NEUTRAL/0.5 default, and
`extract_key_points` returns the empty list, for arbitrary model adapters
and linguistic collaborators (assuming only that sentence tokenization of
the empty string yields no sentences, as NLTK's does); being total Lean
functions, the embedded operations cannot raise. -/
theorem pipeline_defaults_on_empty (summ : Str → ℤ → ℤ → Option Str)
    (st wt : Str → List Str) (pt : List Str → List (Str × Str))
    (stop : List Str) (cl : Str → Option ℚ) (hst : st [] = []) :
    summarize_email summ st 130 30 [] = strL "No content to summarize."
    ∧ analyze_sentiment cl [] = ⟨.NEUTRAL, 1/2⟩
    ∧ extract_key_points st wt pt stop [] 5 = [] := by
  refine ⟨rfl, rfl, ?_⟩
  unfold extract_key_points
  simp only [show clean_text [] = [] from rfl, hst]
  rfl

/-- Witness for C2 at concrete collaborators. -/
theorem pipeline_defaults_on_empty_witness :
    summarize_email summ0 st0 130 30 [] = strL "No content to summarize."
    ∧ analyze_sentiment cl0 [] = ⟨.NEUTRAL, 1/2⟩
    ∧ extract_key_points st0 wt0 pt0 [] [] 5 = [] :=
  pipeline_defaults_on_empty summ0 st0 wt0 pt0 [] cl0 rfl

/-- Claim C5 (counterexample): the claimed equation fails when the cleaned
text is empty — `summarize_email` then returns the sentinel string, not the
empty cleaned text. -/
theorem summarize_clean_empty_ne :
    summarize_email summ0 st0 130 30 (clean_text []) ≠ clean_text [] := by
  decide

/-- Claim C5 (amended): for every text whose cleaned form is nonempty and
has fewer than 50 words, summarizing the cleaned text returns it
unchanged, for arbitrary model adapters. -/
theorem summarize_short_cleaned_fixed (summ : Str → ℤ → ℤ → Option Str)
    (st : Str → List Str) (t : Str) (h1 : clean_text t ≠ [])
    (h2 : (pySplit (clean_text t)).length < 50) :
    summarize_email summ st 130 30 (clean_text t) = clean_text t := by
  have h3 : 3 < (pySplit t).length := by
    by_contra hle
    rw [clean_text_eq t, if_neg hle] at h1
    exact h1 rfl
  have hjoin : clean_text t = joinSpace (pySplit t) := by
    rw [clean_text_eq t, if_pos h3]
  obtain ⟨w, hw⟩ : ∃ w, w ∈ pySplit t := by
    refine List.exists_mem_of_ne_nil _ ?_
    intro hnil
    rw [hnil] at h3
    simp at h3
  obtain ⟨hwne, hwf⟩ := pySplit_good t w hw
  obtain ⟨c, hc⟩ : ∃ c, c ∈ w := by
    cases w with
    | nil => exact absurd rfl hwne
    | cons c cs => exact ⟨c, by simp⟩
  have hcct : c ∈ clean_text t := by
    rw [hjoin]
    exact mem_joinSpace_of_mem hw hc
  have hstrip : pyStrip (clean_text t) ≠ [] := pyStrip_ne_nil hcct (hwf c hc)
  unfold summarize_email
  rw [if_neg hstrip]
  show (let text := clean_text (clean_text t);
    if (pySplit text).length < 50 then text else _) = clean_text t
  rw [clean_text_fix]
  show (if (pySplit (clean_text t)).length < 50 then clean_text t else _) = clean_text t
  rw [if_pos h2]

/-- Witness for the amended C5 at a concrete five-word input. -/
theorem summarize_short_cleaned_fixed_witness :
    clean_text textFive ≠ []
    ∧ (pySplit (clean_text textFive)).length < 50
    ∧ summarize_email summ0 st0 130 30 (clean_text textFive) = clean_text textFive :=
  ⟨by decide, by decide, summarize_short_cleaned_fixed summ0 st0 textFive (by decide) (by decide)⟩

/-- Claim C4: whenever at least one chunk yields a usable score,
`analyze_sentiment` returns the arithmetic mean of the per-chunk scores as
its confidence and maps it to a label by the fixed thresholds (POSITIVE iff
mean > 0.6, NEGATIVE iff mean < 0.4, NEUTRAL otherwise); with zero usable
scores it returns the NEUTRAL/0.5 default. -/
theorem analyze_sentiment_mean_thresholds (cl : Str → Option ℚ) (text : Str) :
    (chunkScores cl text = [] → analyze_sentiment cl text = ⟨.NEUTRAL, 1/2⟩)
    ∧ (chunkScores cl text ≠ [] →
        (analyze_sentiment cl text).confidence
            = (chunkScores cl text).sum / ((chunkScores cl text).length : ℚ)
        ∧ ((analyze_sentiment cl text).sentiment = .POSITIVE
            ↔ 3/5 < (chunkScores cl text).sum / ((chunkScores cl text).length : ℚ))
        ∧ ((analyze_sentiment cl text).sentiment = .NEGATIVE
            ↔ (chunkScores cl text).sum / ((chunkScores cl text).length : ℚ) < 2/5)
        ∧ ((analyze_sentiment cl text).sentiment = .NEUTRAL
            ↔ (2/5 ≤ (chunkScores cl text).sum / ((chunkScores cl text).length : ℚ)
               ∧ (chunkScores cl text).sum / ((chunkScores cl text).length : ℚ) ≤ 3/5))) := by
  constructor
  · intro h
    simp only [analyze_sentiment]
    rw [if_pos h]
  · intro h
    simp only [analyze_sentiment]
    rw [if_neg h]
    set avg := (chunkScores cl text).sum / ((chunkScores cl text).length : ℚ) with havg
    refine ⟨rfl, ?_, ?_, ?_⟩
    · constructor
      · intro hl
        by_contra h1
        rw [if_neg h1] at hl
        by_cases h2 : avg < 2/5
        · rw [if_pos h2] at hl; simp at hl
        · rw [if_neg h2] at hl; simp at hl
      · intro h1
        rw [if_pos h1]
    · constructor
      · intro hl
        by_cases h1 : 3/5 < avg
        · rw [if_pos h1] at hl; simp at hl
        · rw [if_neg h1] at hl
          by_cases h2 : avg < 2/5
          · exact h2
          · rw [if_neg h2] at hl; simp at hl
      · intro h2
        have h1 : ¬ 3/5 < avg := by intro h1; linarith
        rw [if_neg h1, if_pos h2]
    · constructor
      · intro hl
        by_cases h1 : 3/5 < avg
        · rw [if_pos h1] at hl; simp at hl
        · by_cases h2 : avg < 2/5
          · rw [if_neg h1, if_pos h2] at hl; simp at hl
          · exact ⟨le_of_not_lt h2, le_of_not_lt h1⟩
      · rintro ⟨ha, hb⟩
        rw [if_neg (not_lt.mpr hb), if_neg (not_lt.mpr ha)]

/-- Witness for C4: a single-chunk input with score 7/10 yields a POSITIVE
verdict with confidence 7/10, and the zero-score case yields the default. -/
theorem analyze_sentiment_mean_thresholds_witness :
    analyze_sentiment cl0 textFive = ⟨.POSITIVE, 7/10⟩
    ∧ analyze_sentiment (fun _ => none) textFive = ⟨.NEUTRAL, 1/2⟩ := by
  constructor
  · have h := (analyze_sentiment_mean_thresholds cl0 textFive).2 (by decide)
    have hscores : chunkScores cl0 textFive = [7/10] := rfl
    have hconf : (analyze_sentiment cl0 textFive).confidence = 7/10 := by
      rw [h.1, hscores]
      norm_num
    have hlab : (analyze_sentiment cl0 textFive).sentiment = .POSITIVE := by
      refine h.2.1.mpr ?_
      rw [hscores]
      norm_num
    cases hav : analyze_sentiment cl0 textFive
    rw [hav] at hconf hlab
    simp only at hconf hlab
    rw [hconf, hlab]
  · exact (analyze_sentiment_mean_thresholds (fun _ => none) textFive).1 rfl

/-! ### Permutation and key-uniqueness lemmas for the key-point extractor. -/

/-- Stable insertion is a permutation of consing. -/
theorem insertOrd_perm {α : Type} (bf : α → α → Bool) (x : α) :
    ∀ l : List α, List.Perm (insertOrd bf x l) (x :: l) := by
  intro l
  induction l with
  | nil => exact List.Perm.refl _
  | cons y ys ih =>
    by_cases h : bf x y = true
    · rw [insertOrd, if_pos h]
    · rw [insertOrd, if_neg h]
      exact (ih.cons y).trans (List.Perm.swap x y ys)

/-- Folding stable insertions permutes the accumulator and the input. -/
theorem foldl_insertOrd_perm {α : Type} (bf : α → α → Bool) :
    ∀ (l acc : List α),
      List.Perm (l.foldl (fun acc x => insertOrd bf x acc) acc) (acc ++ l) := by
  intro l
  induction l with
  | nil => intro acc; simp
  | cons x xs ih =>
    intro acc
    have h1 := ih (insertOrd bf x acc)
    have h2 : List.Perm (insertOrd bf x acc ++ xs) ((x :: acc) ++ xs) :=
      (insertOrd_perm bf x acc).append_right xs
    exact ((h1.trans h2).trans List.perm_middle.symm)

/-- The stable sort is a permutation of its input. -/
theorem sortOrd_perm {α : Type} (bf : α → α → Bool) (l : List α) :
    List.Perm (sortOrd bf l) l := by
  simpa using foldl_insertOrd_perm bf l []

/-- `dictInsert` leaves the key list unchanged when the key is present and
appends the key otherwise; either way distinct keys stay distinct. -/
theorem dictInsert_keys_nodup (d : List (Str × Nat)) (k : Str) (v : Nat)
    (h : (d.map Prod.fst).Nodup) : ((dictInsert d k v).map Prod.fst).Nodup := by
  unfold dictInsert
  by_cases hany : d.any (fun kv => kv.1 == k) = true
  · rw [if_pos hany, List.map_map]
    have : (Prod.fst ∘ fun kv : Str × Nat => if kv.1 = k then (k, v) else kv)
        = Prod.fst := by
      funext kv
      by_cases hk : kv.1 = k
      · simp [hk]
      · simp [hk]
    rw [this]
    exact h
  · rw [if_neg hany, List.map_append]
    rw [List.nodup_append]
    refine ⟨h, by simp, ?_⟩
    intro a ha hb
    simp only [List.map_cons, List.map_nil, List.mem_singleton] at hb
    subst hb
    rw [List.mem_map] at ha
    obtain ⟨kv, hkv, hfst⟩ := ha
    rw [List.any_eq_true] at hany
    exact hany ⟨kv, hkv, by simp [hfst]⟩

/-- Folding `dictInsert` over any sentence list preserves key
distinctness. -/
theorem foldl_dictInsert_nodup (f : Str → Nat) :
    ∀ (l : List Str) (d : List (Str × Nat)), (d.map Prod.fst).Nodup →
      ((l.foldl (fun d s => dictInsert d s (f s)) d).map Prod.fst).Nodup := by
  intro l
  induction l with
  | nil => intro d h; exact h
  | cons s ss ih =>
    intro d h
    exact ih (dictInsert d s (f s)) (dictInsert_keys_nodup d s (f s) h)

/-- Claim C6 (amended): the returned key points never contain the same
sentence text twice — the score dictionary is keyed by sentence text, so
duplicate occurrences collapse to a single entry. -/
theorem extract_key_points_nodup (st wt : Str → List Str)
    (pt : List Str → List (Str × Str)) (stop : List Str) (text : Str) (n : Nat) :
    (extract_key_points st wt pt stop text n).Nodup := by
  unfold extract_key_points
  set sentences := st (clean_text text) with hsent
  set d := sentences.foldl
    (fun d sentence => dictInsert d sentence (sentenceScore wt pt stop sentences sentence)) []
    with hd
  have hnd : (d.map Prod.fst).Nodup := by
    rw [hd]
    exact foldl_dictInsert_nodup _ sentences [] (by simp)
  have h1 : List.Perm (sortOrd (fun x y => decide (y.2 < x.2)) d) d := sortOrd_perm _ d
  have h1' : ((sortOrd (fun x y => decide (y.2 < x.2)) d).map Prod.fst).Nodup :=
    (h1.map Prod.fst).nodup_iff.mpr hnd
  have h2 : (((sortOrd (fun x y => decide (y.2 < x.2)) d).take n).map Prod.fst).Nodup := by
    rw [List.map_take]
    exact List.Nodup.sublist (List.take_sublist n _) h1'
  have h3 := sortOrd_perm
    (fun x y : Str × Nat => decide (sentences.indexOf x.1 < sentences.indexOf y.1))
    ((sortOrd (fun x y => decide (y.2 < x.2)) d).take n)
  exact (h3.map Prod.fst).nodup_iff.mpr h2

/-- Claim C6 (counterexample): with a sentence tokenizer reporting the same
sentence text at two positions, only one copy can be returned — here the
extractor returns a single key point although the document lists the
sentence twice and five points were requested. -/
theorem extract_key_points_duplicate_collapsed :
    stDup (clean_text textFive) = [sdup, sdup]
    ∧ extract_key_points stDup wt0 pt0 [] textFive 5 = [sdup] := by
  refine ⟨rfl, by decide⟩

/-- Claim C7 (counterexample): in a single-sentence document the only
sentence receives just the first-sentence bonus `+3`, not the claimed
`+5` — the last-sentence bonus sits in an `elif` branch that a first
sentence never reaches. -/
theorem sentenceScore_single_sentence_bonus :
    sentenceScore wt0 pt0 [] [sone] sone = 3
    ∧ sentenceScore wt0 pt0 [] [sone] sone ≠ 3 + 2 := by
  refine ⟨by decide, by decide⟩

/-- Claim C7 (amended): every sentence's score is its part-of-speech base
score, plus 3 when its (first-occurrence) index is 0, otherwise plus 2 when
that index is the last one — a single-sentence document's sentence gets only
the `+3` — plus 2 when its token count lies strictly between 5 and 25. -/
theorem sentenceScore_decomposition (wt : Str → List Str)
    (pt : List Str → List (Str × Str)) (stop : List Str)
    (sentences : List Str) (s : Str) :
    sentenceScore wt pt stop sentences s
      = posBaseScore wt pt stop s
        + (if sentences.indexOf s = 0 then 3
           else if sentences.indexOf s = sentences.length - 1 then 2 else 0)
        + (if 5 < (wt (pyLower s)).length ∧ (wt (pyLower s)).length < 25 then 2 else 0) := by
  simp only [sentenceScore]
  split_ifs <;> omega

/-- Claim C8: the summary, sentiment and key points of a processed email
depend only on its body — two records with equal bodies yield equal
analysis components, whatever their metadata; the embedded pipeline is a
pure function, so repeated calls agree definitionally. -/
theorem process_email_body_determined (summ : Str → ℤ → ℤ → Option Str)
    (st wt : Str → List Str) (pt : List Str → List (Str × Str))
    (stop : List Str) (cl : Str → Option ℚ) (e1 e2 : MessageRecord)
    (h : e1.body = e2.body) :
    (process_email summ st wt pt stop cl e1).summary
        = (process_email summ st wt pt stop cl e2).summary
    ∧ (process_email summ st wt pt stop cl e1).sentiment
        = (process_email summ st wt pt stop cl e2).sentiment
    ∧ (process_email summ st wt pt stop cl e1).key_points
        = (process_email summ st wt pt stop cl e2).key_points := by
  unfold process_email
  rw [h]
  exact ⟨rfl, rfl, rfl⟩

/-- Witness for C8: two records sharing a body but differing in id, subject,
sender and date produce identical summary, sentiment and key points. -/
theorem process_email_body_determined_witness :
    (process_email summ0 st0 wt0 pt0 [] cl0 rec1).summary
        = (process_email summ0 st0 wt0 pt0 [] cl0 rec2).summary
    ∧ (process_email summ0 st0 wt0 pt0 [] cl0 rec1).sentiment
        = (process_email summ0 st0 wt0 pt0 [] cl0 rec2).sentiment
    ∧ (process_email summ0 st0 wt0 pt0 [] cl0 rec1).key_points
        = (process_email summ0 st0 wt0 pt0 [] cl0 rec2).key_points :=
  process_email_body_determined summ0 st0 wt0 pt0 [] cl0 rec1 rec2 rfl

/-- Claim C9: `process_email` returns its input record, unchanged, as the
`original_email` component; the embedding is a pure function of the record,
so no field of the input is mutated. -/
theorem process_email_preserves_input (summ : Str → ℤ → ℤ → Option Str)
    (st wt : Str → List Str) (pt : List Str → List (Str × Str))
    (stop : List Str) (cl : Str → Option ℚ) (e : MessageRecord) :
    (process_email summ st wt pt stop cl e).original_email = e := rfl

end EmailAssist
